import Mathlib

/-!
# crypto-chateau: connection handling and dispatch core

A shallow embedding of `server.go` and `peer.go`.

Every effect the Go code performs on the outside world (a call into a
collaborator, a write to or close of the connection, a log line) is appended to
an event list, in program order. What the outside world answers (the handshake
result, the incoming bytes, the codec results, the handler results, the result
of a write) is supplied by an environment record `Env`, so every theorem below
quantifies over all possible answers.

The stream a `Peer` holds is a Go interface value and may be nil: the listener
loop builds such a peer after a failed accept. A method call on a nil stream
panics; calls end in an `Outcome`, which is a normal return or a panic.
-/

namespace CryptoChateau

/-! ## Go values -/

/-- A Go byte slice. A Go string is a byte sequence too, so `string(b)` and
`[]byte(s)` are the identity in this development. -/
abbrev Bytes := List UInt8

/-- The bytes of a Go string literal (its UTF-8 encoding). -/
def lit (s : String) : Bytes := s.toList.flatMap String.utf8EncodeChar

/-- A Go `error` value; `text` is what `err.Error()` returns. -/
structure GoError where
  text : Bytes
deriving DecidableEq, Repr

/-- Go `errors.New`. -/
def errorsNew (text : Bytes) : GoError := ⟨text⟩

/-- The frame delimiter, the constant `msgDelim` of server.go (a newline). -/
def msgDelim : UInt8 := 10

/-- A handle naming a non-nil `net.Conn` value, a byte stream. -/
structure Conn where
  id : Nat
deriving DecidableEq, Repr

/-- The struct `Peer` of peer.go: a wrapper around the current stream. The field
is a Go interface value: `none` is the nil interface, `some c` a stream. -/
structure Peer where
  conn : Option Conn
deriving DecidableEq, Repr

/-- Go `NewPeer`. -/
def NewPeer (conn : Option Conn) : Peer := { conn := conn }

/-- How a call ends: with a return value, or with a run-time panic (here always
a method call on a nil interface value). -/
inductive Outcome (α : Type) where
  | ret (a : α)
  | panic
deriving DecidableEq, Repr

/-- Forgets the return value of a call. -/
def Outcome.void {α : Type} : Outcome α → Outcome Unit
  | .ret _ => .ret ()
  | .panic => .panic

/-- One call of an exported `Peer` method, as made by a stream handler while it
runs (its in-band exchanges). -/
inductive PeerOp (Msg : Type) where
  | Write (data : Bytes)
  | Read (size : Nat)
  | Close
  | WriteResponse (msg : Msg)
  | WriteError (err : GoError)

/-- The observable actions of a worker, in the granularity of the source: one
constructor per call that leaves `server.go` / `peer.go`. An action the worker
code performs itself stands bare; an action a stream handler performs through
the peer is wrapped in `inband`. -/
inductive Event (Msg : Type) where
  /-- The call `transport.ClientHandshake(ctx, c)`. -/
  | ClientHandshake (c : Option Conn)
  /-- The assignment `peer.conn = securedConnect`. -/
  | setConn (c : Conn)
  /-- The call `bufio.NewReader(peer).ReadBytes(msgDelim)` on a peer that holds
  `c`. -/
  | ReadBytes (c : Option Conn)
  /-- The call `GetHandlerName(bytesMsg)`. -/
  | GetHandlerName (bytesMsg : Bytes)
  /-- The call `ParseMessage(data, msgType)`. -/
  | ParseMessage (data : Bytes) (msgType : Msg)
  /-- The call of a `handlerFunc` registered under `name`. -/
  | callHandler (name : Bytes) (request : Msg)
  /-- The call of a `streamFunc` registered under `name`, handed `peer`. -/
  | callStream (name : Bytes) (request : Msg) (peer : Peer)
  /-- Entry into `Peer.WriteResponse(msg)`. -/
  | WriteResponse (msg : Msg)
  /-- Entry into `Peer.WriteError(err)`. -/
  | WriteError (err : GoError)
  /-- The call `c.Write(data)` on the underlying stream. -/
  | connWrite (c : Conn) (data : Bytes)
  /-- The call `c.Read(b)` with `len(b) = size` on the underlying stream. -/
  | connRead (c : Conn) (size : Nat)
  /-- The call `c.Close()` on the underlying stream. -/
  | connClose (c : Conn)
  /-- The call `log.Println(err)`. -/
  | log (err : GoError)
  /-- An action performed by a stream handler through the `Peer` it was handed,
  while the worker waits for it to return. -/
  | inband (e : Event Msg)

/-- The history of a worker. -/
abbrev Trace (Msg : Type) := List (Event Msg)

/-- The type `handlerFunc` of server.go (the context argument is not used by
the code under study and is left out). -/
abbrev handlerFunc (Msg : Type) := Msg → Except GoError Msg

/-- The type `streamFunc` of server.go. A run of a stream handler is the list
of `Peer` method calls it makes, followed by its return value. -/
abbrev streamFunc (Msg : Type) := Msg → Peer → List (PeerOp Msg) × Except GoError Msg

/-- The dynamic type of `Handler.callFunc` (an `interface{}`), as the type
switch of `handleMethod` sees it. -/
inductive CallFunc (Msg : Type) where
  | handlerFunc (fnc : handlerFunc Msg)
  | streamFunc (fnc : streamFunc Msg)
  | other

/-- The struct `Handler`, with the two fields `handleMethod` reads. -/
structure Handler (Msg : Type) where
  requestMsgType : Msg
  callFunc : CallFunc Msg

/-- The struct `Server`; `Handlers` is the map `map[string]*Handler`, given by
its lookup. `Config`, `Clients` and `shutdownCh` play no part in the worker. -/
structure Server (Msg : Type) where
  Handlers : Bytes → Option (Handler Msg)

/-- The answers of the collaborators that are not part of server.go / peer.go. -/
structure Env (Msg : Type) where
  /-- The method `msg.Marshal()`. -/
  Marshal : Msg → Except GoError Bytes
  /-- The result `(n, err)` of `conn.Write(data)`. -/
  connWrite : Conn → Bytes → Nat × Option GoError
  /-- The result `(n, err)` of `conn.Read(b)` for `len(b) = size`. -/
  connRead : Conn → Nat → Nat × Option GoError
  /-- The result of `conn.Close()`. -/
  connClose : Conn → Option GoError
  /-- The bytes the remote side sends on a stream, and the error the stream
  yields once they are used up (end of file, reset, deadline). -/
  incoming : Conn → Bytes × GoError
  /-- The call `transport.ClientHandshake(ctx, conn)`; the stream it is handed
  may be nil, the stream it returns without error is not. -/
  ClientHandshake : Option Conn → Except GoError Conn
  /-- The call `GetHandlerName(bytesMsg)`: name and payload offset. -/
  GetHandlerName : Bytes → Except GoError (Bytes × Int)
  /-- The call `ParseMessage(data, msgType)`. -/
  ParseMessage : Bytes → Msg → Except GoError Msg

/-! ## bufio.Reader.ReadBytes -/

/-- The shortest initial segment of `input` that ends in `delim`, if any. -/
def takeThrough (delim : UInt8) : Bytes → Option Bytes
  | [] => none
  | b :: rest =>
    if b = delim then some [b]
    else match takeThrough delim rest with
      | some seg => some (b :: seg)
      | none => none

/-- Go `bufio.Reader.ReadBytes(delim)` over a stream, after the documentation of
the standard library: the data up to and including the first delimiter, or the
error of the stream when it ends before a delimiter is seen (the data read so
far is then dropped by the caller). -/
def ReadBytes (input : Bytes × GoError) (delim : UInt8) : Except GoError Bytes :=
  match takeThrough delim input.1 with
  | some seg => .ok seg
  | none => .error input.2

/-! ## peer.go -/

section Worker

variable {Msg : Type}

/-- Go `Peer.WriteResponse`: marshal, then one write of the marshaled bytes. -/
def Peer.WriteResponse (env : Env Msg) (p : Peer) (msg : Msg) (tr : Trace Msg) :
    Outcome (Option GoError) × Trace Msg :=
  let tr1 := tr ++ [Event.WriteResponse msg]
  match env.Marshal msg with
  | .error err => (.ret (some err), tr1)
  | .ok bytesMsg =>
    match p.conn with
    | none => (.panic, tr1)
    | some c => (.ret (env.connWrite c bytesMsg).2, tr1 ++ [Event.connWrite c bytesMsg])

/-- Go `Peer.WriteError`: one write of `"error: " + err.Error()`. -/
def Peer.WriteError (env : Env Msg) (p : Peer) (err : GoError) (tr : Trace Msg) :
    Outcome (Option GoError) × Trace Msg :=
  let msg := lit "error: " ++ err.text
  match p.conn with
  | none => (.panic, tr ++ [Event.WriteError err])
  | some c => (.ret (env.connWrite c msg).2, tr ++ [Event.WriteError err, Event.connWrite c msg])

/-- Go `Peer.Write`: passthrough to the stream. -/
def Peer.Write (env : Env Msg) (p : Peer) (data : Bytes) (tr : Trace Msg) :
    Outcome (Nat × Option GoError) × Trace Msg :=
  match p.conn with
  | none => (.panic, tr)
  | some c => (.ret (env.connWrite c data), tr ++ [Event.connWrite c data])

/-- Go `Peer.Read`: passthrough to the stream. -/
def Peer.Read (env : Env Msg) (p : Peer) (size : Nat) (tr : Trace Msg) :
    Outcome (Nat × Option GoError) × Trace Msg :=
  match p.conn with
  | none => (.panic, tr)
  | some c => (.ret (env.connRead c size), tr ++ [Event.connRead c size])

/-- Go `Peer.Close`: closes the current stream. -/
def Peer.Close (env : Env Msg) (p : Peer) (tr : Trace Msg) :
    Outcome (Option GoError) × Trace Msg :=
  match p.conn with
  | none => (.panic, tr)
  | some c => (.ret (env.connClose c), tr ++ [Event.connClose c])

/-- One in-band call a stream handler makes on its peer: how it ends, and the
actions it performs. -/
def PeerOp.run (env : Env Msg) (p : Peer) : PeerOp Msg → Outcome Unit × Trace Msg
  | .Write data => ((Peer.Write env p data []).1.void, (Peer.Write env p data []).2)
  | .Read size => ((Peer.Read env p size []).1.void, (Peer.Read env p size []).2)
  | .Close => ((Peer.Close env p []).1.void, (Peer.Close env p []).2)
  | .WriteResponse msg =>
    ((Peer.WriteResponse env p msg []).1.void, (Peer.WriteResponse env p msg []).2)
  | .WriteError err => ((Peer.WriteError env p err []).1.void, (Peer.WriteError env p err []).2)

/-- The actions of one in-band call a stream handler makes on its peer. -/
def PeerOp.events (env : Env Msg) (p : Peer) (op : PeerOp Msg) : Trace Msg :=
  (PeerOp.run env p op).2

/-- The in-band calls of a stream handler, in order, up to the first that
panics: how the run of calls ends, and the history after it. -/
def runInband (env : Env Msg) (p : Peer) : List (PeerOp Msg) → Trace Msg → Outcome Unit × Trace Msg
  | [], tr => (.ret (), tr)
  | op :: rest, tr =>
    match PeerOp.run env p op with
    | (.panic, es) => (.panic, tr ++ es.map Event.inband)
    | (.ret _, es) => runInband env p rest (tr ++ es.map Event.inband)

/-! ## server.go: the worker -/

/-- Go `Server.handleMethod`: reads one frame, resolves the handler, decodes the
request, calls the handler and writes its result. Returns how the call ends
(with the returned error, `none` for nil, or with a panic) and the extended
history. -/
def Server.handleMethod (env : Env Msg) (s : Server Msg) (peer : Peer) (tr : Trace Msg) :
    Outcome (Option GoError) × Trace Msg :=
  let tr1 := tr ++ [Event.ReadBytes peer.conn]
  match peer.conn with
  | none => (.panic, tr1)
  | some c =>
  match ReadBytes (env.incoming c) msgDelim with
  | .error err => (.ret (some err), tr1)
  | .ok bytesMsg =>
    let tr2 := tr1 ++ [Event.GetHandlerName bytesMsg]
    match env.GetHandlerName bytesMsg with
    | .error err => (.ret (some err), tr2)
    | .ok (handlerName, n) =>
      match s.Handlers handlerName with
      | none => (.ret (some (errorsNew (lit "unknown handler " ++ handlerName))), tr2)
      | some handler =>
        if n ≥ (bytesMsg.length : Int) then
          (.ret (some (errorsNew (lit "incorrect message"))), tr2)
        else
          let tr3 := tr2 ++ [Event.ParseMessage bytesMsg handler.requestMsgType]
          match env.ParseMessage bytesMsg handler.requestMsgType with
          | .error err => (.ret (some err), tr3)
          | .ok requestMsg =>
            match handler.callFunc with
            | .handlerFunc fnc =>
              let tr4 := tr3 ++ [Event.callHandler handlerName requestMsg]
              match fnc requestMsg with
              | .error err => Peer.WriteError env peer err tr4
              | .ok responseMsg =>
                match Peer.WriteResponse env peer responseMsg tr4 with
                | (.ret (some err), tr5) => (.ret (some err), tr5)
                | (.ret none, tr5) => (.ret none, tr5)
                | (.panic, tr5) => (.panic, tr5)
            | .streamFunc fnc =>
              let tr4 := tr3 ++ [Event.callStream handlerName requestMsg peer]
              match fnc requestMsg peer with
              | (ops, result) =>
                match runInband env peer ops tr4 with
                | (.panic, tr5) => (.panic, tr5)
                | (.ret _, tr5) =>
                  match result with
                  | .error err => Peer.WriteError env peer err tr5
                  | .ok responseMsg =>
                    match Peer.WriteResponse env peer responseMsg tr5 with
                    | (.ret (some err), tr6) => (.ret (some err), tr6)
                    | (.ret none, tr6) => (.ret none, tr6)
                    | (.panic, tr6) => (.panic, tr6)
            | .other =>
              (.ret (some (errorsNew (lit "incorrect handler format: InternalError"))), tr3)

/-- Go `Server.handleRequest`, the worker of one connection: handshake, stream
replacement, `handleMethod`, and the deferred `peer.Close()`, which runs on
every return and also when `handleMethod` panics. Returns how the worker ends,
the peer as it leaves it, and the extended history. -/
def Server.handleRequest (env : Env Msg) (s : Server Msg) (peer : Peer) (tr : Trace Msg) :
    Outcome Unit × Peer × Trace Msg :=
  let tr1 := tr ++ [Event.ClientHandshake peer.conn]
  match env.ClientHandshake peer.conn with
  | .error err =>
    ((Peer.Close env peer (tr1 ++ [Event.log err])).1.void, peer,
      (Peer.Close env peer (tr1 ++ [Event.log err])).2)
  | .ok securedConnect =>
    let peer1 : Peer := { peer with conn := some securedConnect }
    let tr2 := tr1 ++ [Event.setConn securedConnect]
    match Server.handleMethod env s peer1 tr2 with
    | (.ret (some err), tr3) =>
      ((Peer.Close env peer1 (tr3 ++ [Event.log err])).1.void, peer1,
        (Peer.Close env peer1 (tr3 ++ [Event.log err])).2)
    | (.ret none, tr3) => ((Peer.Close env peer1 tr3).1.void, peer1, (Peer.Close env peer1 tr3).2)
    | (.panic, tr3) => (.panic, peer1, (Peer.Close env peer1 tr3).2)

end Worker

/-! ## server.go: the listener loop -/

/-- The error result of `listener.Accept()`, as the listener loop inspects it:
whether its dynamic type is `*net.OpError`, and then what `Timeout()` says. A
timeout error is an `opError` whose flag holds; an error of another dynamic
type is never taken for a timeout by the loop. -/
inductive AcceptErr where
  | opError (timeout : Bool) (text : Bytes)
  | other (text : Bytes)
deriving DecidableEq, Repr

/-- Go `err.Error()` for an accept error. -/
def AcceptErr.Error : AcceptErr → Bytes
  | .opError _ text => text
  | .other text => text

/-- The pair `(conn, err)` returned by `listener.Accept()`; `none` is nil in
both places. -/
structure AcceptResult where
  conn : Option Conn
  err : Option AcceptErr
deriving DecidableEq, Repr

/-- What one pass through the `for` loop of `listenClients` does. -/
inductive ListenStep where
  /-- The `return` of the `ctx.Done()` case. -/
  | exit
  /-- The `continue` after a timeout. -/
  | retry
  /-- The send `clientChan <- peer`, after the optional log line. -/
  | forward (logged : Option Bytes) (peer : Peer)
deriving DecidableEq, Repr

/-- One iteration of the loop of Go `Server.listenClients`. `ctxDone` says
whether the `ctx.Done()` case of the select is taken; `accepted` is what
`listener.Accept()` returns when the default case runs. -/
def listenIteration (ctxDone : Bool) (accepted : AcceptResult) : ListenStep :=
  if ctxDone then .exit
  else
    match accepted.err with
    | some (.opError true _) => .retry
    | some err =>
      .forward (some (lit "Failed to accept connection:" ++ lit " " ++ err.Error)) (NewPeer accepted.conn)
    | none => .forward none (NewPeer accepted.conn)

/-! ## Projections of a history -/

section Projections

variable {Msg : Type}

/-- The bytes one action puts on the wire, in-band actions included. -/
def Event.written : Event Msg → List (Conn × Bytes)
  | .connWrite c data => [(c, data)]
  | .inband e => e.written
  | _ => []

/-- The byte sequences written to the underlying streams, one per write, by the
worker code and by stream handlers alike. -/
def writes (tr : Trace Msg) : List (Conn × Bytes) := tr.flatMap Event.written

/-- The stream one action closes, in-band actions included. -/
def Event.closed : Event Msg → List Conn
  | .connClose c => [c]
  | .inband e => e.closed
  | _ => []

/-- The streams closed, one per close, by the worker code and by stream
handlers alike. -/
def allCloses (tr : Trace Msg) : List Conn := tr.flatMap Event.closed

/-- The streams closed by the worker code itself, one per close. -/
def closes (tr : Trace Msg) : List Conn :=
  tr.filterMap fun e => match e with
    | .connClose c => some c
    | _ => none

/-- The arguments of the calls of the decoder `ParseMessage`. -/
def decoderInputs (tr : Trace Msg) : List (Bytes × Msg) :=
  tr.filterMap fun e => match e with
    | .ParseMessage data ty => some (data, ty)
    | _ => none

/-- The handler invocations: name, request, and the peer handed over (none for
a unary handler). -/
def handlerCalls (tr : Trace Msg) : List (Bytes × Msg × Option Peer) :=
  tr.filterMap fun e => match e with
    | .callHandler name req => some (name, req, none)
    | .callStream name req peer => some (name, req, some peer)
    | _ => none

/-- The messages the worker code entered `Peer.WriteResponse` with. -/
def responseCalls (tr : Trace Msg) : List Msg :=
  tr.filterMap fun e => match e with
    | .WriteResponse msg => some msg
    | _ => none

/-- The errors the worker code entered `Peer.WriteError` with. -/
def errorCalls (tr : Trace Msg) : List GoError :=
  tr.filterMap fun e => match e with
    | .WriteError err => some err
    | _ => none

/-- The frame reads of the worker code, each with the stream of the peer. -/
def frameReads (tr : Trace Msg) : List (Option Conn) :=
  tr.filterMap fun e => match e with
    | .ReadBytes c => some c
    | _ => none

/-- The stream replacements `peer.conn = securedConnect`. -/
def streamSwaps (tr : Trace Msg) : List Conn :=
  tr.filterMap fun e => match e with
    | .setConn c => some c
    | _ => none

end Projections

/-! ## A small deployment, for concrete runs -/

namespace Sample

/-- An end-of-file error. -/
def eof : GoError := ⟨lit "EOF"⟩

/-- A codec for text frames `name:payload` + newline: the name is what stands
before the first colon or newline, the payload starts right after it. -/
def getHandlerName (frame : Bytes) : Except GoError (Bytes × Int) :=
  let name := frame.takeWhile fun b => b != 58 && b != 10
  if name.length < frame.length then .ok (name, (name.length : Int) + 1)
  else .error ⟨lit "no handler name"⟩

/-- A decoder for text requests: accepts every input but the frame `Echo:?`. -/
def parseMessage (data : Bytes) (_ty : Bytes) : Except GoError Bytes :=
  if data = lit "Echo:?\n" then .error ⟨lit "bad request"⟩ else .ok data

/-- An environment over text messages: the raw stream 1 upgrades to the secured
stream 2, every other handshake fails; the remote side sends `input`. -/
def env (input : Bytes) : Env Bytes where
  Marshal := fun m => if m = lit "!" then .error ⟨lit "cannot marshal"⟩ else .ok m
  connWrite := fun _ data => (data.length, none)
  connRead := fun _ _ => (0, some eof)
  connClose := fun _ => none
  incoming := fun _ => (input, eof)
  ClientHandshake := fun c =>
    if c = some ⟨1⟩ then .ok ⟨2⟩ else .error ⟨lit "handshake failed"⟩
  GetHandlerName := getHandlerName
  ParseMessage := parseMessage

/-- A unary handler that returns its request. -/
def echo : handlerFunc Bytes := fun req => .ok req

/-- A unary handler that always returns a business error. -/
def fail : handlerFunc Bytes := fun _ => .error ⟨lit "bad input"⟩

/-- A stream handler that greets the peer, reads once, and returns its request. -/
def chat : streamFunc Bytes := fun req _ => ([.Write (lit "hello"), .Read 16], .ok req)

/-- A stream handler that greets the peer and returns a business error. -/
def chatFail : streamFunc Bytes := fun _ _ => ([.Write (lit "hello")], .error ⟨lit "bad input"⟩)

/-- A stream handler that closes its peer itself and returns its request. -/
def hangup : streamFunc Bytes := fun req _ => ([.Close], .ok req)

/-- A server with six registered handlers. -/
def server : Server Bytes where
  Handlers := fun name =>
    if name = lit "Echo" then some ⟨[], .handlerFunc echo⟩
    else if name = lit "Fail" then some ⟨[], .handlerFunc fail⟩
    else if name = lit "Chat" then some ⟨[], .streamFunc chat⟩
    else if name = lit "ChatFail" then some ⟨[], .streamFunc chatFail⟩
    else if name = lit "Bye" then some ⟨[], .streamFunc hangup⟩
    else if name = lit "Odd" then some ⟨[], .other⟩
    else none

/-- A peer on the raw stream 1. -/
def rawPeer : Peer := NewPeer (some ⟨1⟩)

/-- A peer on the secured stream 2. -/
def securedPeer : Peer := NewPeer (some ⟨2⟩)

/-- A peer built from a failed accept: its stream is nil. -/
def nilPeer : Peer := NewPeer none

end Sample

/-! ## The final contract of the dispatch step, after the specification -/

/-- The final response/error contract in the words of the specification: on
error, write the error payload via `WriteError` and stop; on success, write the
response via `WriteResponse`. -/
def finalContract {Msg : Type} (env : Env Msg) (peer : Peer) (r : Except GoError Msg)
    (tr : Trace Msg) : Outcome (Option GoError) × Trace Msg :=
  match r with
  | .error err => Peer.WriteError env peer err tr
  | .ok responseMsg => Peer.WriteResponse env peer responseMsg tr

/-! ## Theorems -/

section Theorems

variable {Msg : Type}

/-- Returning the error of `WriteResponse` when it is non-nil and nil otherwise
is returning what `WriteResponse` returned. -/
theorem return_err_or_nil (x : Outcome (Option GoError) × Trace Msg) :
    (match x with
      | (.ret (some err), tr5) => (.ret (some err), tr5)
      | (.ret none, tr5) => (.ret none, tr5)
      | (.panic, tr5) => (.panic, tr5)) = x := by
  rcases x with ⟨⟨_ | _⟩ | _, _⟩ <;> rfl

/-- On a peer that holds a stream, an in-band call returns. -/
theorem PeerOp_run_some (env : Env Msg) (p : Peer) (c : Conn) (hconn : p.conn = some c)
    (op : PeerOp Msg) : PeerOp.run env p op = (.ret (), PeerOp.events env p op) := by
  cases op with
  | WriteResponse msg =>
    cases hmar : env.Marshal msg <;>
      simp [PeerOp.events, PeerOp.run, Peer.WriteResponse, hmar, hconn, Outcome.void]
  | _ =>
    simp [PeerOp.events, PeerOp.run, Peer.Write, Peer.Read, Peer.Close, Peer.WriteError,
      hconn, Outcome.void]

/-- On a peer that holds a stream, the in-band calls of a stream handler all
return, and the history grows by their actions, each marked as in-band. -/
theorem runInband_some (env : Env Msg) (p : Peer) (c : Conn) (hconn : p.conn = some c)
    (ops : List (PeerOp Msg)) (tr : Trace Msg) :
    runInband env p ops tr =
      (.ret (), tr ++ (ops.flatMap (PeerOp.events env p)).map Event.inband) := by
  induction ops generalizing tr with
  | nil => simp [runInband]
  | cons op rest ih =>
    simp [runInband, PeerOp_run_some env p c hconn op, ih, List.flatMap_cons]

/-- C1: for a registered unary handler, a frame whose payload offset is below
the frame length and which decodes, a handler run that returns a response and
a response that marshals, `handleMethod` adds exactly one write to the peer,
of the marshaled response, never enters `WriteError`, and returns what that
write returned. -/
theorem handleMethod_unary_success (env : Env Msg) (s : Server Msg) (peer : Peer) (c : Conn)
    (tr : Trace Msg) (frame name : Bytes) (n : Int) (h : Handler Msg)
    (fnc : handlerFunc Msg) (req resp : Msg) (out : Bytes)
    (hconn : peer.conn = some c)
    (hread : ReadBytes (env.incoming c) msgDelim = .ok frame)
    (hname : env.GetHandlerName frame = .ok (name, n))
    (hreg : s.Handlers name = some h)
    (hfn : h.callFunc = .handlerFunc fnc)
    (hoff : n < (frame.length : Int))
    (hdec : env.ParseMessage frame h.requestMsgType = .ok req)
    (hrun : fnc req = .ok resp)
    (hmar : env.Marshal resp = .ok out) :
    (s.handleMethod env peer tr).2 =
        tr ++ [Event.ReadBytes peer.conn, Event.GetHandlerName frame,
          Event.ParseMessage frame h.requestMsgType, Event.callHandler name req,
          Event.WriteResponse resp, Event.connWrite c out]
      ∧ writes (s.handleMethod env peer tr).2 = writes tr ++ [(c, out)]
      ∧ errorCalls (s.handleMethod env peer tr).2 = errorCalls tr
      ∧ (s.handleMethod env peer tr).1 = .ret (env.connWrite c out).2 := by
  have hoff2 : ¬ (n ≥ (frame.length : Int)) := not_le.mpr hoff
  have key : s.handleMethod env peer tr =
      (.ret (env.connWrite c out).2,
        tr ++ [Event.ReadBytes peer.conn, Event.GetHandlerName frame,
          Event.ParseMessage frame h.requestMsgType, Event.callHandler name req,
          Event.WriteResponse resp, Event.connWrite c out]) := by
    simp only [Server.handleMethod, return_err_or_nil, hconn, hread, hname, hreg, hoff2,
      if_false, hdec, hfn, hrun, Peer.WriteResponse, hmar]
    simp
  rw [key]
  simp [writes, errorCalls, Event.written, List.filterMap_append]

/-- C2: when a registered unary handler returns a business error `e` on a
well-formed frame, `handleMethod` enters `WriteError` and issues the single
write `"error: " + e.Error()`, and the worker `handleRequest` writes exactly
those bytes in one write, never enters `WriteResponse`, and ends by closing the
secured stream. -/
theorem handleRequest_business_error (env : Env Msg) (s : Server Msg) (peer : Peer)
    (tr : Trace Msg) (sec : Conn) (frame name : Bytes) (n : Int) (h : Handler Msg)
    (fnc : handlerFunc Msg) (req : Msg) (e : GoError)
    (hshake : env.ClientHandshake peer.conn = .ok sec)
    (hread : ReadBytes (env.incoming sec) msgDelim = .ok frame)
    (hname : env.GetHandlerName frame = .ok (name, n))
    (hreg : s.Handlers name = some h)
    (hfn : h.callFunc = .handlerFunc fnc)
    (hoff : n < (frame.length : Int))
    (hdec : env.ParseMessage frame h.requestMsgType = .ok req)
    (hrun : fnc req = .error e) :
    s.handleMethod env { conn := some sec }
          (tr ++ [Event.ClientHandshake peer.conn, Event.setConn sec]) =
        (.ret (env.connWrite sec (lit "error: " ++ e.text)).2,
          tr ++ [Event.ClientHandshake peer.conn, Event.setConn sec] ++
            [Event.ReadBytes (some sec), Event.GetHandlerName frame,
              Event.ParseMessage frame h.requestMsgType, Event.callHandler name req,
              Event.WriteError e, Event.connWrite sec (lit "error: " ++ e.text)])
      ∧ (s.handleRequest env peer tr).2.2 =
        tr ++ [Event.ClientHandshake peer.conn, Event.setConn sec,
            Event.ReadBytes (some sec), Event.GetHandlerName frame,
            Event.ParseMessage frame h.requestMsgType, Event.callHandler name req,
            Event.WriteError e, Event.connWrite sec (lit "error: " ++ e.text)] ++
          (match (env.connWrite sec (lit "error: " ++ e.text)).2 with
            | some werr => [Event.log werr]
            | none => []) ++
          [Event.connClose sec]
      ∧ writes (s.handleRequest env peer tr).2.2 = writes tr ++ [(sec, lit "error: " ++ e.text)]
      ∧ responseCalls (s.handleRequest env peer tr).2.2 = responseCalls tr
      ∧ closes (s.handleRequest env peer tr).2.2 = closes tr ++ [sec]
      ∧ allCloses (s.handleRequest env peer tr).2.2 = allCloses tr ++ [sec]
      ∧ (s.handleRequest env peer tr).1 = .ret () := by
  have hoff2 : ¬ (n ≥ (frame.length : Int)) := not_le.mpr hoff
  have key : ∀ tr0 : Trace Msg, s.handleMethod env { conn := some sec } tr0 =
      (.ret (env.connWrite sec (lit "error: " ++ e.text)).2,
        tr0 ++ [Event.ReadBytes (some sec), Event.GetHandlerName frame,
          Event.ParseMessage frame h.requestMsgType, Event.callHandler name req,
          Event.WriteError e, Event.connWrite sec (lit "error: " ++ e.text)]) := by
    intro tr0
    simp only [Server.handleMethod, hread, hname, hreg, hoff2, if_false, hdec, hfn, hrun,
      Peer.WriteError]
    simp
  refine ⟨key _, ?_⟩
  have hreq : s.handleRequest env peer tr =
      (.ret (), { conn := some sec },
        tr ++ [Event.ClientHandshake peer.conn, Event.setConn sec,
          Event.ReadBytes (some sec), Event.GetHandlerName frame,
          Event.ParseMessage frame h.requestMsgType, Event.callHandler name req,
          Event.WriteError e, Event.connWrite sec (lit "error: " ++ e.text)] ++
        (match (env.connWrite sec (lit "error: " ++ e.text)).2 with
          | some werr => [Event.log werr]
          | none => []) ++
        [Event.connClose sec]) := by
    simp only [Server.handleRequest, hshake, key, Peer.Close]
    cases hw : (env.connWrite sec (lit "error: " ++ e.text)).2 <;> simp [Outcome.void]
  rw [hreq]
  refine ⟨rfl, ?_, ?_, ?_, ?_, rfl⟩ <;>
    cases hw : (env.connWrite sec (lit "error: " ++ e.text)).2 <;>
    simp [writes, responseCalls, closes, allCloses, Event.written, Event.closed,
      List.filterMap_append]

/-- C3: when `handleMethod` fails on a frame for a reason other than a business
error (name extraction fails, the name is not registered, the payload offset is
not below the frame length, decoding fails, or the call target has neither
recognised shape), it returns an error and adds no write to the peer; for an
unregistered name the error is `unknown handler` followed by the name. -/
theorem handleMethod_non_business_failure (env : Env Msg) (s : Server Msg) (peer : Peer)
    (c : Conn) (tr : Trace Msg) (frame : Bytes)
    (hconn : peer.conn = some c)
    (hread : ReadBytes (env.incoming c) msgDelim = .ok frame)
    (hfail : (∃ err, env.GetHandlerName frame = .error err) ∨
      ∃ name n, env.GetHandlerName frame = .ok (name, n) ∧
        (s.Handlers name = none ∨
          ∃ h, s.Handlers name = some h ∧
            (n ≥ (frame.length : Int) ∨
              (∃ err, env.ParseMessage frame h.requestMsgType = .error err) ∨
              h.callFunc = .other))) :
    (∃ err, (s.handleMethod env peer tr).1 = .ret (some err))
      ∧ writes (s.handleMethod env peer tr).2 = writes tr
      ∧ (match env.GetHandlerName frame with
          | .ok (name, _) =>
            (match s.Handlers name with
              | none => (s.handleMethod env peer tr).1 =
                  .ret (some (errorsNew (lit "unknown handler " ++ name)))
              | some _ => True)
          | .error _ => True) := by
  rcases hfail with ⟨err, hname⟩ | ⟨name, n, hname, hrest⟩
  · simp [Server.handleMethod, hconn, hread, hname, writes, Event.written]
  · rcases hrest with hreg | ⟨h, hreg, hcase⟩
    · simp [Server.handleMethod, hconn, hread, hname, hreg, writes, Event.written]
    · by_cases hoff : n ≥ (frame.length : Int)
      · simp [Server.handleMethod, hconn, hread, hname, hreg, hoff, writes, Event.written]
      · rcases hcase with h1 | ⟨err, hdec⟩ | hother
        · exact absurd h1 hoff
        · simp [Server.handleMethod, hconn, hread, hname, hreg, hoff, hdec, writes,
            Event.written]
        · cases hdec : env.ParseMessage frame h.requestMsgType with
          | error err =>
            simp [Server.handleMethod, hconn, hread, hname, hreg, hoff, hdec, writes,
              Event.written]
          | ok req =>
            simp [Server.handleMethod, hconn, hread, hname, hreg, hoff, hdec, hother, writes,
              Event.written]

/-- C4, amended: when the payload offset returned by name extraction is not
below the frame length, `handleMethod` returns an error without calling the
decoder, without invoking a handler and without writing. For a registered name
the error is `incorrect message`; for an unregistered one the lookup, which
comes first, has already failed with `unknown handler` followed by the name. -/
theorem handleMethod_offset_rejected (env : Env Msg) (s : Server Msg) (peer : Peer)
    (c : Conn) (tr : Trace Msg) (frame name : Bytes) (n : Int)
    (hconn : peer.conn = some c)
    (hread : ReadBytes (env.incoming c) msgDelim = .ok frame)
    (hname : env.GetHandlerName frame = .ok (name, n))
    (hoff : n ≥ (frame.length : Int)) :
    (∃ err, (s.handleMethod env peer tr).1 = .ret (some err))
      ∧ (s.handleMethod env peer tr).2 =
          tr ++ [Event.ReadBytes peer.conn, Event.GetHandlerName frame]
      ∧ decoderInputs (s.handleMethod env peer tr).2 = decoderInputs tr
      ∧ handlerCalls (s.handleMethod env peer tr).2 = handlerCalls tr
      ∧ writes (s.handleMethod env peer tr).2 = writes tr
      ∧ (s.handleMethod env peer tr).1 =
          (match s.Handlers name with
            | some _ => .ret (some (errorsNew (lit "incorrect message")))
            | none => .ret (some (errorsNew (lit "unknown handler " ++ name)))) := by
  cases hreg : s.Handlers name with
  | none =>
    simp [Server.handleMethod, hconn, hread, hname, hreg, writes, decoderInputs, handlerCalls,
      Event.written, List.filterMap_append]
  | some h =>
    simp [Server.handleMethod, hconn, hread, hname, hreg, hoff, writes, decoderInputs,
      handlerCalls, Event.written, List.filterMap_append]

/-- C5, amended: for a peer that holds a stream (its connection is not nil),
when the handshake fails the worker `handleRequest` logs the error and closes
the raw stream, and does nothing else: no write, no frame read, no handler
invocation, and the peer keeps its raw stream. -/
theorem handleRequest_handshake_failure (env : Env Msg) (s : Server Msg) (peer : Peer)
    (c : Conn) (tr : Trace Msg) (err : GoError)
    (hconn : peer.conn = some c)
    (hshake : env.ClientHandshake peer.conn = .error err) :
    s.handleRequest env peer tr =
        (.ret (), peer, tr ++ [Event.ClientHandshake peer.conn, Event.log err,
          Event.connClose c])
      ∧ writes (s.handleRequest env peer tr).2.2 = writes tr
      ∧ frameReads (s.handleRequest env peer tr).2.2 = frameReads tr
      ∧ handlerCalls (s.handleRequest env peer tr).2.2 = handlerCalls tr
      ∧ streamSwaps (s.handleRequest env peer tr).2.2 = streamSwaps tr
      ∧ closes (s.handleRequest env peer tr).2.2 = closes tr ++ [c]
      ∧ allCloses (s.handleRequest env peer tr).2.2 = allCloses tr ++ [c] := by
  have key : s.handleRequest env peer tr =
      (.ret (), peer, tr ++ [Event.ClientHandshake peer.conn, Event.log err,
        Event.connClose c]) := by
    rw [hconn] at hshake
    simp [Server.handleRequest, hshake, Peer.Close, hconn, Outcome.void]
  rw [key]
  simp [writes, frameReads, handlerCalls, streamSwaps, closes, allCloses, Event.written,
    Event.closed, List.filterMap_append]

/-- A successful `ReadBytes` returns data that ends in the delimiter. -/
theorem takeThrough_getLast (delim : UInt8) (input seg : Bytes)
    (h : takeThrough delim input = some seg) : seg.getLast? = some delim := by
  induction input generalizing seg with
  | nil => simp [takeThrough] at h
  | cons b rest ih =>
    unfold takeThrough at h
    split at h
    · rename_i hb
      cases h
      simp [hb]
    · cases hrec : takeThrough delim rest with
      | none => simp [hrec] at h
      | some seg0 =>
        simp [hrec] at h
        subst h
        have h0 := ih seg0 hrec
        cases seg0 with
        | nil => simp at h0
        | cons x xs => simpa [List.getLast?_cons_cons] using h0

/-- A frame read by `ReadBytes` ends in the frame delimiter. -/
theorem ReadBytes_ok_getLast (input : Bytes × GoError) (delim : UInt8) (frame : Bytes)
    (h : ReadBytes input delim = .ok frame) : frame.getLast? = some delim := by
  unfold ReadBytes at h
  cases hseg : takeThrough delim input.1 with
  | none => simp [hseg] at h
  | some seg =>
    simp [hseg] at h
    subst h
    exact takeThrough_getLast delim input.1 seg hseg

/-- C6, amended: for every frame that passes handler resolution, `handleMethod`
calls the decoder once, with the whole frame as read (the handler name at its
start included) whose last byte is the delimiter 0x0A, and with the declared
request type of the resolved handler. -/
theorem handleMethod_decoder_receives_frame (env : Env Msg) (s : Server Msg) (peer : Peer)
    (c : Conn) (tr : Trace Msg) (frame name : Bytes) (n : Int) (h : Handler Msg)
    (hconn : peer.conn = some c)
    (hread : ReadBytes (env.incoming c) msgDelim = .ok frame)
    (hname : env.GetHandlerName frame = .ok (name, n))
    (hreg : s.Handlers name = some h)
    (hoff : n < (frame.length : Int)) :
    decoderInputs (s.handleMethod env peer tr).2 =
        decoderInputs tr ++ [(frame, h.requestMsgType)]
      ∧ frame.getLast? = some msgDelim := by
  have hoff2 : ¬ (n ≥ (frame.length : Int)) := not_le.mpr hoff
  refine ⟨?_, ReadBytes_ok_getLast _ _ _ hread⟩
  simp only [Server.handleMethod, return_err_or_nil, hconn, runInband_some env peer c hconn,
    hread, hname, hreg, hoff2, if_false, Peer.WriteError, Peer.WriteResponse]
  repeat' split
  all_goals simp [decoderInputs, List.filterMap_append, List.filterMap_map]

/-- C8: for a registered stream handler and a well-formed frame, `handleMethod`
invokes the handler once, with the decoded request and the peer of the
connection, and once the handler has returned applies the final contract of the
unary path: both paths equal `finalContract` on the handler result. After the
in-band actions of the handler the worker adds exactly the write of the marshaled
response when the handler returns one, and exactly the write of
`"error: " + e.Error()`, without entering `WriteResponse`, when it returns an
error `e`. -/
theorem handleMethod_stream_contract (env : Env Msg) (s : Server Msg) (peer : Peer) (c : Conn)
    (tr mid : Trace Msg) (frame name : Bytes) (n : Int) (h : Handler Msg)
    (fnc : streamFunc Msg) (req : Msg) (ops : List (PeerOp Msg)) (r : Except GoError Msg)
    (s2 : Server Msg) (h2 : Handler Msg) (g : handlerFunc Msg)
    (hconn : peer.conn = some c)
    (hread : ReadBytes (env.incoming c) msgDelim = .ok frame)
    (hname : env.GetHandlerName frame = .ok (name, n))
    (hreg : s.Handlers name = some h)
    (hfn : h.callFunc = .streamFunc fnc)
    (hoff : n < (frame.length : Int))
    (hdec : env.ParseMessage frame h.requestMsgType = .ok req)
    (hrun : fnc req peer = (ops, r))
    (hmid : mid = (runInband env peer ops
      (tr ++ [Event.ReadBytes peer.conn, Event.GetHandlerName frame,
        Event.ParseMessage frame h.requestMsgType, Event.callStream name req peer])).2)
    (hreg2 : s2.Handlers name = some h2)
    (hty2 : h2.requestMsgType = h.requestMsgType)
    (hfn2 : h2.callFunc = .handlerFunc g)
    (hrun2 : g req = r) :
    s.handleMethod env peer tr = finalContract env peer r mid
      ∧ s2.handleMethod env peer tr = finalContract env peer r
          (tr ++ [Event.ReadBytes peer.conn, Event.GetHandlerName frame,
            Event.ParseMessage frame h.requestMsgType, Event.callHandler name req])
      ∧ handlerCalls (s.handleMethod env peer tr).2 = handlerCalls tr ++ [(name, req, some peer)]
      ∧ writes mid = writes tr ++ writes ((ops.flatMap (PeerOp.events env peer)).map Event.inband)
      ∧ (match r with
          | .error e =>
            (s.handleMethod env peer tr).2 =
                mid ++ [Event.WriteError e, Event.connWrite c (lit "error: " ++ e.text)]
              ∧ writes (s.handleMethod env peer tr).2 =
                writes mid ++ [(c, lit "error: " ++ e.text)]
              ∧ responseCalls (s.handleMethod env peer tr).2 = responseCalls tr
          | .ok resp =>
            (match env.Marshal resp with
              | .ok out =>
                (s.handleMethod env peer tr).2 =
                    mid ++ [Event.WriteResponse resp, Event.connWrite c out]
                  ∧ writes (s.handleMethod env peer tr).2 = writes mid ++ [(c, out)]
                  ∧ errorCalls (s.handleMethod env peer tr).2 = errorCalls tr
              | .error _ =>
                (s.handleMethod env peer tr).2 = mid ++ [Event.WriteResponse resp]
                  ∧ writes (s.handleMethod env peer tr).2 = writes mid
                  ∧ errorCalls (s.handleMethod env peer tr).2 = errorCalls tr)) := by
  have hoff2 : ¬ (n ≥ (frame.length : Int)) := not_le.mpr hoff
  rw [runInband_some env peer c hconn] at hmid
  simp only at hmid
  have key : s.handleMethod env peer tr = finalContract env peer r mid := by
    subst hmid
    simp only [Server.handleMethod, return_err_or_nil, hconn, runInband_some env peer c hconn,
      hread, hname, hreg, hoff2, if_false, hdec, hfn, hrun, finalContract]
    cases r <;> simp
  have key2 : s2.handleMethod env peer tr = finalContract env peer r
      (tr ++ [Event.ReadBytes peer.conn, Event.GetHandlerName frame,
        Event.ParseMessage frame h.requestMsgType, Event.callHandler name req]) := by
    simp only [Server.handleMethod, return_err_or_nil, hconn, hread, hname, hreg2, hoff2,
      if_false, hty2, hdec, hfn2, hrun2, finalContract]
    cases r <;> simp
  refine ⟨key, key2, ?_, ?_, ?_⟩
  · rw [key, hmid]
    cases r with
    | error e =>
      simp [finalContract, Peer.WriteError, hconn, handlerCalls, List.filterMap_append,
        List.filterMap_map]
    | ok resp =>
      cases hmar : env.Marshal resp <;>
        simp [finalContract, Peer.WriteResponse, hmar, hconn, handlerCalls,
          List.filterMap_append, List.filterMap_map]
  · rw [hmid]
    simp [writes, Event.written]
  · rw [key]
    cases r with
    | error e =>
      simp [finalContract, Peer.WriteError, hconn, writes, Event.written, hmid,
        responseCalls, List.filterMap_append, List.filterMap_map]
    | ok resp =>
      cases hmar : env.Marshal resp <;>
        simp [finalContract, Peer.WriteResponse, hmar, hconn, writes, Event.written, hmid,
          errorCalls, List.filterMap_append, List.filterMap_map]

/-- C10: in one iteration of the listener loop with cancellation not signalled,
a timeout error of accept (an operation error whose `Timeout()` holds) makes
the loop retry without forwarding; any other error is logged and the peer built
from the failed accept result is forwarded, exactly as after a successful
accept. A peer is forwarded if and only if accept returned no timeout error. -/
theorem listenIteration_forwards_iff (accepted : AcceptResult) :
    ((∃ logged, listenIteration false accepted = .forward logged (NewPeer accepted.conn)) ↔
        ¬ ∃ text, accepted.err = some (.opError true text))
      ∧ (listenIteration false accepted = .retry ↔
        ∃ text, accepted.err = some (.opError true text))
      ∧ (∀ conn text, listenIteration false ⟨conn, some (.opError true text)⟩ = .retry)
      ∧ (∀ conn text, listenIteration false ⟨conn, some (.opError false text)⟩ =
          .forward (some (lit "Failed to accept connection:" ++ lit " " ++ text)) (NewPeer conn))
      ∧ (∀ conn text, listenIteration false ⟨conn, some (.other text)⟩ =
          .forward (some (lit "Failed to accept connection:" ++ lit " " ++ text)) (NewPeer conn))
      ∧ (∀ conn, listenIteration false ⟨conn, none⟩ = .forward none (NewPeer conn)) := by
  refine ⟨?_, ?_, ?_, ?_, ?_, ?_⟩
  · rcases accepted with ⟨conn, _ | ⟨_ | _, text⟩ | text⟩ <;> simp [listenIteration]
  · rcases accepted with ⟨conn, _ | ⟨_ | _, text⟩ | text⟩ <;> simp [listenIteration]
  · intro conn text; simp [listenIteration]
  · intro conn text; simp [listenIteration, AcceptErr.Error]
  · intro conn text; simp [listenIteration, AcceptErr.Error]
  · intro conn; simp [listenIteration]

end Theorems

/-! ## Concrete runs -/

/-- The frame `Echo:hi` + newline on the sample server: one write, of the
marshaled response, and no entry into `WriteError`. -/
theorem handleMethod_unary_success_witness :
    writes (Sample.server.handleMethod (Sample.env (lit "Echo:hi\n")) Sample.securedPeer []).2 =
        [(⟨2⟩, lit "Echo:hi\n")]
      ∧ errorCalls
          (Sample.server.handleMethod (Sample.env (lit "Echo:hi\n")) Sample.securedPeer []).2 =
        [] := by
  have h := handleMethod_unary_success (Sample.env (lit "Echo:hi\n")) Sample.server
    Sample.securedPeer ⟨2⟩ [] (lit "Echo:hi\n") (lit "Echo") 5 ⟨[], .handlerFunc Sample.echo⟩
    Sample.echo (lit "Echo:hi\n") (lit "Echo:hi\n") (lit "Echo:hi\n")
    rfl rfl rfl rfl rfl (by decide) rfl rfl rfl
  exact ⟨h.2.1, h.2.2.1⟩

/-- The frame `Fail:x` + newline on the sample server: the worker writes
`error: bad input` once, never enters `WriteResponse`, and closes stream 2. -/
theorem handleRequest_business_error_witness :
    writes (Sample.server.handleRequest (Sample.env (lit "Fail:x\n")) Sample.rawPeer []).2.2 =
        [(⟨2⟩, lit "error: bad input")]
      ∧ responseCalls
          (Sample.server.handleRequest (Sample.env (lit "Fail:x\n")) Sample.rawPeer []).2.2 = []
      ∧ closes (Sample.server.handleRequest (Sample.env (lit "Fail:x\n")) Sample.rawPeer []).2.2 =
        [⟨2⟩] := by
  have h := handleRequest_business_error (Sample.env (lit "Fail:x\n")) Sample.server
    Sample.rawPeer [] ⟨2⟩ (lit "Fail:x\n") (lit "Fail") 5 ⟨[], .handlerFunc Sample.fail⟩
    Sample.fail (lit "Fail:x\n") ⟨lit "bad input"⟩
    rfl rfl rfl rfl rfl (by decide) rfl rfl
  exact ⟨h.2.2.1, h.2.2.2.1, h.2.2.2.2.1⟩

/-- The frame `Bogus:x` + newline on the sample server: an `unknown handler`
error and no write. -/
theorem handleMethod_non_business_failure_witness :
    (∃ err,
        (Sample.server.handleMethod (Sample.env (lit "Bogus:x\n")) Sample.securedPeer []).1 =
          .ret (some err))
      ∧ writes
          (Sample.server.handleMethod (Sample.env (lit "Bogus:x\n")) Sample.securedPeer []).2 =
        []
      ∧ (Sample.server.handleMethod (Sample.env (lit "Bogus:x\n")) Sample.securedPeer []).1 =
        .ret (some (errorsNew (lit "unknown handler Bogus"))) := by
  have h := handleMethod_non_business_failure (Sample.env (lit "Bogus:x\n")) Sample.server
    Sample.securedPeer ⟨2⟩ [] (lit "Bogus:x\n") rfl rfl
    (Or.inr ⟨lit "Bogus", 6, rfl, Or.inl rfl⟩)
  exact ⟨h.1, h.2.1, h.2.2⟩

/-- C4 as stated fails: it is not so that every frame whose payload offset is
not below the frame length is answered with the error `incorrect message`. On
the frame `Bogus` + newline (offset 6, length 6) the sample server returns
`unknown handler Bogus`, since the name is not registered. -/
theorem handleMethod_offset_unregistered_counterexample :
    ¬ ∀ (env : Env Bytes) (s : Server Bytes) (peer : Peer) (c : Conn) (tr : Trace Bytes)
        (frame name : Bytes) (n : Int),
        peer.conn = some c →
        ReadBytes (env.incoming c) msgDelim = .ok frame →
        env.GetHandlerName frame = .ok (name, n) →
        n ≥ (frame.length : Int) →
        (s.handleMethod env peer tr).1 = .ret (some (errorsNew (lit "incorrect message")))
          ∧ decoderInputs (s.handleMethod env peer tr).2 = decoderInputs tr
          ∧ handlerCalls (s.handleMethod env peer tr).2 = handlerCalls tr := by
  intro hall
  have h := hall (Sample.env (lit "Bogus\n")) Sample.server Sample.securedPeer ⟨2⟩ []
    (lit "Bogus\n") (lit "Bogus") 6 rfl rfl rfl (by decide)
  have hcode : (Sample.server.handleMethod (Sample.env (lit "Bogus\n")) Sample.securedPeer []).1 =
      .ret (some (errorsNew (lit "unknown handler Bogus"))) := by decide
  rw [hcode] at h
  exact absurd h.1 (by decide)

/-- The frame `Echo` + newline on the sample server: the registered name is
followed by no payload, the offset 5 equals the frame length, and the frame is
rejected with `incorrect message` before the decoder or the handler is called. -/
theorem handleMethod_offset_rejected_witness :
    (Sample.server.handleMethod (Sample.env (lit "Echo\n")) Sample.securedPeer []).1 =
        .ret (some (errorsNew (lit "incorrect message")))
      ∧ decoderInputs
          (Sample.server.handleMethod (Sample.env (lit "Echo\n")) Sample.securedPeer []).2 = []
      ∧ handlerCalls
          (Sample.server.handleMethod (Sample.env (lit "Echo\n")) Sample.securedPeer []).2 =
        [] := by
  have h := handleMethod_offset_rejected (Sample.env (lit "Echo\n")) Sample.server
    Sample.securedPeer ⟨2⟩ [] (lit "Echo\n") (lit "Echo") 5 rfl rfl rfl (by decide)
  exact ⟨h.2.2.2.2.2, h.2.2.1, h.2.2.2.1⟩

/-- C5 as stated fails: it is not so that for every peer a failed handshake ends
with the connection closed. On the peer with a nil stream, the one the listener
loop forwards after a failed accept, the handshake of the sample environment
fails, the deferred `peer.Close()` panics, and no stream is closed. -/
theorem handleRequest_handshake_failure_nil_counterexample :
    (¬ ∀ (env : Env Bytes) (s : Server Bytes) (peer : Peer) (tr : Trace Bytes) (err : GoError),
        env.ClientHandshake peer.conn = .error err →
        writes (s.handleRequest env peer tr).2.2 = writes tr
          ∧ frameReads (s.handleRequest env peer tr).2.2 = frameReads tr
          ∧ handlerCalls (s.handleRequest env peer tr).2.2 = handlerCalls tr
          ∧ (s.handleRequest env peer tr).2.1 = peer
          ∧ (allCloses (s.handleRequest env peer tr).2.2).length = (allCloses tr).length + 1)
      ∧ listenIteration false ⟨none, some (.other (lit "accept failed"))⟩ =
          .forward (some (lit "Failed to accept connection: accept failed")) Sample.nilPeer
      ∧ Sample.server.handleRequest (Sample.env []) Sample.nilPeer [] =
          (.panic, Sample.nilPeer,
            [Event.ClientHandshake none, Event.log ⟨lit "handshake failed"⟩]) := by
  refine ⟨?_, by decide, by rfl⟩
  intro hall
  have h := hall (Sample.env []) Sample.server Sample.nilPeer [] ⟨lit "handshake failed"⟩ rfl
  exact absurd h.2.2.2.2 (by decide)

/-- A peer on stream 7, whose handshake fails on the sample environment: the
worker logs, closes stream 7, and does nothing else. -/
theorem handleRequest_handshake_failure_witness :
    Sample.server.handleRequest (Sample.env (lit "Echo:hi\n")) (NewPeer (some ⟨7⟩)) [] =
        (.ret (), NewPeer (some ⟨7⟩),
          [Event.ClientHandshake (some ⟨7⟩), Event.log ⟨lit "handshake failed"⟩,
            Event.connClose ⟨7⟩])
      ∧ writes
          (Sample.server.handleRequest (Sample.env (lit "Echo:hi\n")) (NewPeer (some ⟨7⟩)) []).2.2 =
        [] := by
  have h := handleRequest_handshake_failure (Sample.env (lit "Echo:hi\n")) Sample.server
    (NewPeer (some ⟨7⟩)) ⟨7⟩ [] ⟨lit "handshake failed"⟩ rfl rfl
  exact ⟨h.1, h.2.1⟩

/-- C6 as stated fails: it is not so that the decoder is handed the bytes from
the payload offset on without the trailing delimiter, nor that it is never
handed the trailing newline. On the frame `Echo:hi` + newline, whose payload
`hi` starts at offset 5, the decoder is handed all eight bytes of the frame. -/
theorem handleMethod_decoder_input_counterexample :
    (¬ ∀ (env : Env Bytes) (s : Server Bytes) (peer : Peer) (c : Conn) (tr : Trace Bytes)
        (frame name : Bytes) (n : Int) (h : Handler Bytes),
        peer.conn = some c →
        ReadBytes (env.incoming c) msgDelim = .ok frame →
        env.GetHandlerName frame = .ok (name, n) →
        s.Handlers name = some h →
        n < (frame.length : Int) →
        decoderInputs (s.handleMethod env peer tr).2 =
          decoderInputs tr ++ [((frame.drop n.toNat).dropLast, h.requestMsgType)])
      ∧ (¬ ∀ (env : Env Bytes) (s : Server Bytes) (peer : Peer) (c : Conn)
        (frame name : Bytes) (n : Int) (h : Handler Bytes),
        peer.conn = some c →
        ReadBytes (env.incoming c) msgDelim = .ok frame →
        env.GetHandlerName frame = .ok (name, n) →
        s.Handlers name = some h →
        n < (frame.length : Int) →
        ∀ d ∈ decoderInputs (s.handleMethod env peer []).2, d.1.getLast? ≠ some msgDelim)
      ∧ decoderInputs
          (Sample.server.handleMethod (Sample.env (lit "Echo:hi\n")) Sample.securedPeer []).2 =
        [(lit "Echo:hi\n", [])]
      ∧ ((lit "Echo:hi\n").drop 5).dropLast = lit "hi" := by
  refine ⟨?_, ?_, by decide, by decide⟩
  · intro hall
    have h := hall (Sample.env (lit "Echo:hi\n")) Sample.server Sample.securedPeer ⟨2⟩ []
      (lit "Echo:hi\n") (lit "Echo") 5 ⟨[], .handlerFunc Sample.echo⟩ rfl rfl rfl rfl
      (by decide)
    revert h
    decide
  · intro hall
    have h := hall (Sample.env (lit "Echo:hi\n")) Sample.server Sample.securedPeer ⟨2⟩
      (lit "Echo:hi\n") (lit "Echo") 5 ⟨[], .handlerFunc Sample.echo⟩ rfl rfl rfl rfl
      (by decide) (lit "Echo:hi\n", []) (by decide)
    exact absurd h (by decide)

/-- The frame `Echo:hi` + newline on the sample server: the decoder is called
once, with the whole frame, which ends in the newline. -/
theorem handleMethod_decoder_receives_frame_witness :
    decoderInputs
        (Sample.server.handleMethod (Sample.env (lit "Echo:hi\n")) Sample.securedPeer []).2 =
        [(lit "Echo:hi\n", [])]
      ∧ (lit "Echo:hi\n").getLast? = some msgDelim := by
  have h := handleMethod_decoder_receives_frame (Sample.env (lit "Echo:hi\n")) Sample.server
    Sample.securedPeer ⟨2⟩ [] (lit "Echo:hi\n") (lit "Echo") 5 ⟨[], .handlerFunc Sample.echo⟩
    rfl rfl rfl rfl (by decide)
  exact ⟨h.1, h.2⟩

/-- The frame `Chat:hi` + newline on the sample server: after the greeting the
stream handler writes in-band, the worker writes the marshaled response, as the
unary path does for the same handler result. -/
theorem handleMethod_stream_contract_witness :
    writes (Sample.server.handleMethod (Sample.env (lit "Chat:hi\n")) Sample.securedPeer []).2 =
        [(⟨2⟩, lit "hello"), (⟨2⟩, lit "Chat:hi\n")]
      ∧ handlerCalls
          (Sample.server.handleMethod (Sample.env (lit "Chat:hi\n")) Sample.securedPeer []).2 =
        [(lit "Chat", lit "Chat:hi\n", some Sample.securedPeer)] := by
  have h := handleMethod_stream_contract (Sample.env (lit "Chat:hi\n")) Sample.server
    Sample.securedPeer ⟨2⟩ []
    (runInband (Sample.env (lit "Chat:hi\n")) Sample.securedPeer
      [.Write (lit "hello"), .Read 16]
      [Event.ReadBytes (some ⟨2⟩), Event.GetHandlerName (lit "Chat:hi\n"),
        Event.ParseMessage (lit "Chat:hi\n") [],
        Event.callStream (lit "Chat") (lit "Chat:hi\n") Sample.securedPeer]).2
    (lit "Chat:hi\n") (lit "Chat") 5 ⟨[], .streamFunc Sample.chat⟩ Sample.chat
    (lit "Chat:hi\n") [.Write (lit "hello"), .Read 16] (.ok (lit "Chat:hi\n"))
    ⟨fun _ => some ⟨[], .handlerFunc Sample.echo⟩⟩ ⟨[], .handlerFunc Sample.echo⟩ Sample.echo
    rfl rfl rfl rfl rfl (by decide) rfl rfl rfl rfl rfl rfl rfl
  exact ⟨h.2.2.2.2.2.1, h.2.2.1⟩

end CryptoChateau
